import Mathlib

set_option maxHeartbeats 1000000

namespace WebScraper

/-! Shallow embedding of the locator-resilience core of the apollo web
scraper: the selector generator and miner (selector-miner, src part_000), the
validator and config updater (same file), the scraper row discovery and the
drift monitor escalation (src part_001). Live-document queries are abstracted
as explicit environment records; all persisted state is explicit. -/

/-- Double-quote character, written by code point so that quote handling in
strings stays explicit. -/
def quoteChar : Char := Char.ofNat 34

/-- Single-quote character. -/
def apostropheChar : Char := Char.ofNat 39

/-- Colon character, used by the id heuristic to reject volatile generated ids. -/
def colonChar : Char := Char.ofNat 58

/-- JavaScript truthiness for an optional string: null, undefined and the empty
string are falsy; a non-empty string passes through. -/
def tv : Option String → Option String
  | none => none
  | some s => if s = "" then none else some s

/-- Boolean prefix test on character lists, used to translate the JavaScript
startsWith calls in a kernel-reducible form. -/
def isPrefixChars : List Char → List Char → Bool
  | [], _ => true
  | _ :: _, [] => false
  | a :: as, b :: bs => a == b && isPrefixChars as bs

/-- startsWith of the source, over the character lists of the two strings. -/
def strStartsWith (s p : String) : Bool :=
  isPrefixChars p.toList s.toList

/-- includes of the source for a single character. -/
def strContains (s : String) (c : Char) : Bool :=
  s.toList.contains c

/-- Serialized description of one DOM element as consumed by the in-page
heuristic of findBestSelector (src part_000, lines 93-163): lowercased tag
name, optional data-testid, optional id, the class list in DOM order, optional
role attribute, and for each class name the number of sibling elements other
than the element itself carrying that class. -/
structure ElemData where
  tag : String
  testid : Option String
  eid : Option String
  classes : List String
  role : Option String
  siblingClassCount : String → Nat

/-- Classes with the semantic prefix and length strictly above 6: the pool for
priority 3 of generateSelector (src part_000, line 110). -/
def zpClasses (classes : List String) : List String :=
  classes.filter (fun c => strStartsWith c "zp_" && decide (6 < c.length))

/-- Head of the stable descending-by-length sort used to pick the primary
class (src part_000, line 114): the longest string, earliest in list order
among ties. -/
def longestFirst (cs : List String) : Option String :=
  cs.foldl (fun acc c =>
    match acc with
    | none => some c
    | some b => if b.length < c.length then some c else acc) none

/-- Priority 3 of generateSelector (src part_000, lines 108-132): unique
semantic-class combination; a none result means fall through to priority 4. -/
def prio3 (e : ElemData) : Option String :=
  match longestFirst (zpClasses e.classes) with
  | none => none
  | some primary =>
    if e.siblingClassCount primary = 0 then
      some (e.tag ++ "." ++ primary)
    else
      match e.classes.find? (fun c => strStartsWith c "zp_" && c != primary) with
      | some sec => some (e.tag ++ "." ++ primary ++ "." ++ sec)
      | none => none

/-- Priority 4 of generateSelector (src part_000, lines 134-142): role
attribute combined with all prefix-matching classes; yields nothing when the
element has no prefix-matching class. -/
def prio4 (e : ElemData) : Option String :=
  match tv e.role with
  | some r =>
    let cls := String.intercalate "." (e.classes.filter (fun c => strStartsWith c "zp_"))
    if cls.isEmpty then none
    else some (e.tag ++ "[role=\"" ++ r ++ "\"]." ++ cls)
  | none => none

/-- Priorities 3 then 4, in fall-through order. -/
def prio34 (e : ElemData) : Option String :=
  match prio3 e with
  | some s => some s
  | none => prio4 e

/-- The four-priority selector heuristic generateSelector (src part_000, lines
97-145): data-testid, then a colon-free id, then the semantic-class
combination, then role plus classes; none when all four fail. -/
def generateSelector (e : ElemData) : Option String :=
  match tv e.testid with
  | some t => some (e.tag ++ "[data-testid=\"" ++ t ++ "\"]")
  | none =>
    match tv e.eid with
    | some i =>
      if !(strContains i colonChar) then some ("#" ++ i)
      else prio34 e
    | none => prio34 e

/-- The ancestry walk of findBestSelector (src part_000, lines 148-158): the
loop runs while the step counter is below the fuel and an element remains,
trying generateSelector and moving to the parent on failure. The chain lists
the element first, then its ancestors upward. -/
def walkChain : Nat → List ElemData → Option String
  | 0, _ => none
  | _ + 1, [] => none
  | n + 1, e :: rest =>
    match generateSelector e with
    | some s => some s
    | none => walkChain n rest

/-- findBestSelector (src part_000, lines 93-163): the walk starts with fuel 3,
so it visits the element itself and at most two ancestors. -/
def findBestSelector (chain : List ElemData) : Option String :=
  walkChain 3 chain

/-- An element offering nothing to any of the four priorities. -/
def blankElem : ElemData :=
  { tag := "div", testid := none, eid := none, classes := [], role := none,
    siblingClassCount := fun _ => 0 }

/-- An element whose data-testid makes priority 1 succeed immediately. -/
def testidElem : ElemData :=
  { tag := "a", testid := some "contact-name-cell", eid := none, classes := [],
    role := none, siblingClassCount := fun _ => 0 }

/-- Predicate a class must satisfy to be mined as the row class (src part_000,
line 224): semantic prefix and length strictly greater than 10. -/
def isRowClassCandidate (c : String) : Bool :=
  strStartsWith c "zp_" && decide (10 < c.length)

/-- Row-class mining from the row element class list (src part_000, lines
222-229): the first class in class-list order satisfying the predicate. -/
def mineRowClass (classes : List String) : Option String :=
  classes.find? isRowClassCandidate

/-- The recorded row-class locator, div.<class>, or nothing when no class
qualifies. -/
def minedRowClassField (classes : List String) : Option String :=
  (mineRowClass classes).map (fun c => "div." ++ c)

/-- Follows the claim and spec wording only, for comparison with mineRowClass:
the longest class with the semantic prefix and the minimum length. -/
def specRowClassLongest (classes : List String) : Option String :=
  longestFirst (classes.filter isRowClassCandidate)

/-- The field identifiers of the MinedSelectors interface (src part_000, lines
74-87), rowClass pseudo-field included. -/
inductive FieldKey where
  | rowClass
  | name
  | jobTitle
  | companyName
  | email
  | emailRequiresAccess
  | phoneRequestLink
  | phoneVisible
  | linkedIn
  | location
  | employeeCount
  | nicheTags
  deriving DecidableEq, Repr

/-- A MiningResult: the entries of the mined JavaScript object in insertion
order. A key present with value none models a property explicitly set to null;
an absent key models an unset property. -/
abbrev MiningEntries := List (FieldKey × Option String)

/-- Live-document probe used by the validator: for a locator string, its match
count and whether its first match is visible. -/
structure ProbeEnv where
  count : String → Nat
  visible : String → Bool

/-- One iteration of the validation loop of validateSelectors (src part_000,
lines 354-371): entries whose value is falsy or whose key is rowClass are
skipped; an entry counts as valid iff its match count is positive and the
first match is visible. -/
def entryValid (env : ProbeEnv) (kv : FieldKey × Option String) : Bool :=
  if kv.1 = FieldKey.rowClass then false
  else
    match tv kv.2 with
    | none => false
    | some sel => decide (0 < env.count sel) && env.visible sel

/-- Count of entries the validation loop marks valid. -/
def validCount (env : ProbeEnv) (entries : MiningEntries) : Nat :=
  entries.countP (fun kv => entryValid env kv)

/-- Count of keys of the mined object, Object.keys(mined).length. -/
def totalCount (entries : MiningEntries) : Nat :=
  entries.length

/-- Count of fields the validator actually resolves against the document:
entries other than the rowClass pseudo-field whose value is a non-empty
string. -/
def attemptedCount (entries : MiningEntries) : Nat :=
  entries.countP (fun kv => !(decide (kv.1 = FieldKey.rowClass)) && (tv kv.2).isSome)

/-- The acceptance verdict of validateSelectors (src part_000, lines 348-377):
validityRate = validCount / (totalCount - 1) >= 0.7, with the JavaScript float
division unfolded exactly. The denominator is totalCount - 1 whatever the
mapping holds: 0 / -1 and 0 / 0 (NaN) compare false against 0.7, v / 0 for
positive v (Infinity) compares true, and for a positive denominator the
comparison agrees with the exact rational one, since the counts at play stay
far below any float rounding boundary around 7/10. -/
def validateSelectors (env : ProbeEnv) (entries : MiningEntries) : Bool :=
  match totalCount entries with
  | 0 => false
  | 1 => decide (0 < validCount env entries)
  | Nat.succ t => decide (7 * t ≤ 10 * validCount env entries)

/-- Every entry of the mining result resolves to a valid locator: positive
match count, visible first match, no unset value. -/
def allMinedValid (env : ProbeEnv) (entries : MiningEntries) : Bool :=
  entries.all (fun kv =>
    match kv.2 with
    | some sel => decide (0 < env.count sel) && env.visible sel
    | none => false)

/-- Live-document view used by the row-discovery phase of mineSelectors: for a
row-selector candidate, the number of matches, the class list of the first
match and the cell count of the first match. -/
structure DocEnv where
  count : String → Nat
  firstRowClasses : String → List String
  firstRowCellCount : String → Nat

/-- Outcome of the row-discovery phase of mineSelectors: the accepted row
selector if any, whether mining proceeded past the cell-count check, and the
mining result returned. -/
structure MiningOutcome where
  rowSelectorUsed : Option String
  proceeded : Bool
  mined : MiningEntries
  deriving Repr

/-- The row-discovery and early-return structure of mineSelectors (src
part_000, lines 200-242): accept the first candidate with a positive match
count; with no such candidate return the empty result; otherwise mine the row
class from the first match, and if the first match holds fewer than 10 cells
return early with what was mined so far. The per-cell mining of the remaining
fields is abstracted as the continuation argument. -/
def mineSelectorsModel (candidates : List String) (env : DocEnv)
    (mineCells : String → MiningEntries) : MiningOutcome :=
  match candidates.find? (fun s => decide (0 < env.count s)) with
  | none => { rowSelectorUsed := none, proceeded := false, mined := [] }
  | some s =>
    let base : MiningEntries :=
      match mineRowClass (env.firstRowClasses s) with
      | some c => [(FieldKey.rowClass, some ("div." ++ c))]
      | none => []
    if env.firstRowCellCount s < 10 then
      { rowSelectorUsed := some s, proceeded := false, mined := base }
    else
      { rowSelectorUsed := some s, proceeded := true, mined := base ++ mineCells s }

/-- Follows the claim and spec wording only, for comparison with the row
discovery of mineSelectorsModel: the first candidate whose first match
contains at least 10 cells. -/
def specRowDiscovery (candidates : List String) (env : DocEnv) : Option String :=
  candidates.find? (fun s => decide (0 < env.count s) && decide (10 ≤ env.firstRowCellCount s))

/-- First-match association lookup over FieldKey-keyed entries, as property
access on a JavaScript object with unique keys. -/
def lookupKV {α : Type} : List (FieldKey × α) → FieldKey → Option α
  | [], _ => none
  | p :: rest, k => if p.1 = k then some p.2 else lookupKV rest k

/-- Rewrite every entry of the given key in place, keeping positions. -/
def setKV {α : Type} (l : List (FieldKey × α)) (k : FieldKey) (v : α) : List (FieldKey × α) :=
  l.map (fun p => if p.1 = k then (k, v) else p)

/-- JavaScript property assignment: overwrite the existing entry or append a
new one. -/
def setOrAddKV {α : Type} (l : List (FieldKey × α)) (k : FieldKey) (v : α) :
    List (FieldKey × α) :=
  match lookupKV l k with
  | some _ => setKV l k v
  | none => l ++ [(k, v)]

/-- The quote stripping replace(/quote-or-apostrophe/g, empty) that
updateSelectors applies to the old source text of a value before comparing it
with the mined value (src part_000, lines 410 and 432). Composed with the
quotes getText adds around a stored value, it returns the stored value with
every quote character inside it removed as well. -/
def stripQuotes (s : String) : String :=
  String.mk (s.toList.filter (fun ch => ch != apostropheChar && ch != quoteChar))

/-- The string holds no apostrophe or double quote, so stripQuotes leaves it
unchanged. -/
def noQuotes (s : String) : Bool :=
  s.toList.all (fun ch => ch != apostropheChar && ch != quoteChar)

/-- noQuotes lifted over an optional value; an unset value trivially passes. -/
def noQuotesO : Option String → Bool
  | none => true
  | some v => noQuotes v

/-- The hardcoded original fallback row selector updateSelectors appends when
rowSelectors holds fewer than three entries (src part_000, line 414). -/
def rowFallbackSelector : String := "div.zp_Uiy0R"

/-- The rowSelectors update step of updateSelectors (src part_000, lines
401-424), given the truthy mined row class if any: only lists with more than
one entry are touched; when the quote-stripped old second entry differs from
the mined class, the hardcoded fallback is first appended if the list holds
fewer than three entries, then the second entry is replaced. Returns the new
list and the number of changes recorded. -/
def applyRow (rcOpt : Option String) (rs : List String) : List String × Nat :=
  match rcOpt with
  | none => (rs, 0)
  | some rc =>
    if 1 < rs.length then
      if stripQuotes (rs.getD 1 "") ≠ rc then
        (((if rs.length < 3 then rs ++ [rowFallbackSelector] else rs)).set 1 rc, 1)
      else (rs, 0)
    else (rs, 0)

/-- The per-field update loop of updateSelectors (src part_000, lines 427-447):
entries with key rowClass or a falsy value are skipped; an existing property is
rewritten when its quote-stripped old text differs from the mined value; a
missing property is appended. Returns the new table and the number of changes
recorded. -/
def applyFields : MiningEntries → List (FieldKey × String) → List (FieldKey × String) × Nat
  | [], tbl => (tbl, 0)
  | kv :: rest, tbl =>
    if kv.1 = FieldKey.rowClass then applyFields rest tbl
    else
      match tv kv.2 with
      | none => applyFields rest tbl
      | some v =>
        match lookupKV tbl kv.1 with
        | some stored =>
          if stripQuotes stored ≠ v then
            let r := applyFields rest (setKV tbl kv.1 v)
            (r.1, r.2 + 1)
          else applyFields rest tbl
        | none =>
          let r := applyFields rest (tbl ++ [(kv.1, v)])
          (r.1, r.2 + 1)

/-- The persisted table object of selectors.ts as updateSelectors manipulates
it: the ordered rowSelectors list and the flat per-field locator entries. -/
structure SelFile where
  rowSelectors : List String
  table : List (FieldKey × String)
  deriving DecidableEq, Repr

/-- The truthy mined row class of a mining result, if any. -/
def rcOf (mined : MiningEntries) : Option String :=
  match lookupKV mined FieldKey.rowClass with
  | some v => tv v
  | none => none

/-- updateSelectors (src part_000, lines 380-464) at the data level: read the
truthy mined row class, update the designated rowSelectors slot, then run the
per-field loop; the file is rewritten iff at least one change was recorded, so
a zero change count means no write. -/
def updateSelectors (mined : MiningEntries) (st : SelFile) : SelFile × Nat :=
  let row := applyRow (rcOf mined) st.rowSelectors
  let fields := applyFields mined st.table
  ({ rowSelectors := row.1, table := fields.1 }, row.2 + fields.2)

/-- The constant access-gated locator recorded for the email field (src
part_000, line 305). -/
def accessConst : String := "button:has-text(\"Access\")"

/-- The selector generated for the visible email span, when the span is
present; the span element is given as its ancestry chain. -/
def emailSpanSelector (spanChain : Option (List ElemData)) : Option String :=
  match spanChain with
  | some ch => findBestSelector ch
  | none => none

/-- The email case of the cell-mapping switch in mineSelectors (src part_000,
lines 296-307) together with the shared recording step at line 333: the
visible-text span, if present, yields a selector through findBestSelector; the
access button, if present, sets the emailRequiresAccess property; then the
truthy selector, if any, is recorded under email. Both recordings land in the
same mined object. -/
def mineEmailCell (m : MiningEntries) (spanChain : Option (List ElemData))
    (accessBtn : Bool) : MiningEntries :=
  let m1 := if accessBtn then setOrAddKV m FieldKey.emailRequiresAccess (some accessConst) else m
  match tv (emailSpanSelector spanChain) with
  | some s => setOrAddKV m1 FieldKey.email (some s)
  | none => m1

/-- One probe outcome of the drift monitor (src part_001, lines 705-711); the
source field named exists is rendered here as found, exists being reserved. -/
structure ProbeResult where
  found : Bool
  count : Nat
  description : String
  deriving Repr

/-- One category of the monitoring report: a named group of probe results. -/
structure CategoryResult where
  category : String
  results : List ProbeResult
  deriving Repr

/-- The failed-probe descriptions handleSelectorFailures collects (src
part_001, lines 803-806): probes that do not exist and whose count is zero. -/
def failedSelectors (results : List CategoryResult) : List String :=
  (((results.map (fun c => c.results)).flatten).filter
    (fun r => !r.found && decide (r.count = 0))).map (fun r => r.description)

/-- Observable outcome of handleSelectorFailures: whether the mining
suggestion was raised and whether the monitor invoked the miner. -/
structure MonitorEscalation where
  miningSuggested : Bool
  minerInvoked : Bool
  deriving DecidableEq, Repr

/-- handleSelectorFailures (src part_001, lines 802-818): when strictly more
than 3 probes failed, the mining suggestion is raised; the auto-mine branch of
the source contains no miner invocation whatever the AUTO_MINE_ON_FAILURE
environment flag holds, so the monitor never invokes the miner. -/
def handleSelectorFailures (results : List CategoryResult) (autoMineEnv : Bool) :
    MonitorEscalation :=
  if 3 < (failedSelectors results).length then
    { miningSuggested := true, minerInvoked := false }
  else
    { miningSuggested := false, minerInvoked := autoMineEnv && false }

/-- Outcome of the post-mining stretch of the miner main requestHandler. -/
structure PipelineResult where
  validationInvoked : Bool
  accepted : Bool
  updateInvoked : Bool
  finalState : SelFile
  changes : Nat
  deriving Repr

/-- The gating of the miner main requestHandler (src part_000, lines 567-581):
the validator runs only when the mined object holds strictly more than 3 keys,
and the updater runs only on an accepted validation; otherwise the persisted
state is untouched. -/
def minePipeline (env : ProbeEnv) (mined : MiningEntries) (st : SelFile) : PipelineResult :=
  if 3 < totalCount mined then
    if validateSelectors env mined then
      let r := updateSelectors mined st
      { validationInvoked := true, accepted := true, updateInvoked := true,
        finalState := r.1, changes := r.2 }
    else
      { validationInvoked := true, accepted := false, updateInvoked := false,
        finalState := st, changes := 0 }
  else
    { validationInvoked := false, accepted := false, updateInvoked := false,
      finalState := st, changes := 0 }

/-! Concrete fixtures: the shipped configuration of selectors.ts (src
part_002) and small synthetic documents and mining results used to settle the
claims on explicit inputs. -/

/-- First shipped row-selector candidate, the most reliable aria-based one. -/
def rowSelCand1 : String := "div[role=\"row\"][aria-rowindex]:not([aria-rowindex=\"0\"])"

/-- Second shipped row-selector candidate, the auto-updated mined-class slot. -/
def rowSelCand2 : String := "div.zp_Uiy0R"

/-- Third shipped row-selector candidate, the legacy fallback entry. -/
def rowSelCand3 : String := "div[role=\"row\"]:not(:has([role=\"columnheader\"]))"

/-- The shipped rowSelectors list (src part_002, lines 20-24). -/
def initialRowSelectors : List String := [rowSelCand1, rowSelCand2, rowSelCand3]

/-- The shipped per-field locator entries of the current table (src part_002,
lines 29-39). -/
def initialTable : List (FieldKey × String) :=
  [(FieldKey.name, "a[data-testid=\"contact-name-cell\"] span.zp_CaeaN"),
   (FieldKey.jobTitle, "span.zp_FEm_X"),
   (FieldKey.companyName, "a.zp_REh41 span.zp_CaeaN"),
   (FieldKey.email, "span.zp_CaeaN.zp_JTaUA"),
   (FieldKey.emailRequiresAccess, accessConst),
   (FieldKey.phoneRequestLink, "a.zp_BCsLt:has-text(\"Request\")"),
   (FieldKey.phoneVisible, "span.zp_CaeaN"),
   (FieldKey.linkedIn, "a[href*=\"linkedin.com/in\"]"),
   (FieldKey.location, "span.zp_FEm_X"),
   (FieldKey.employeeCount, "span.zp_Vnh4L"),
   (FieldKey.nicheTags, "span.zp_z4aAi")]

/-- The shipped persisted state. -/
def initialFile : SelFile :=
  { rowSelectors := initialRowSelectors, table := initialTable }

/-- A probe environment where exactly the locators starting with v resolve:
one visible match for those, nothing for the rest. -/
def envPrefixV : ProbeEnv :=
  { count := fun s => if strStartsWith s "v" then 1 else 0, visible := fun _ => true }

/-- A probe environment where every locator resolves to one visible match. -/
def envAllValid : ProbeEnv :=
  { count := fun _ => 1, visible := fun _ => true }

/-- Nine mined fields, no rowClass entry, six of them valid under envPrefixV. -/
def entriesC2 : MiningEntries :=
  [(FieldKey.name, some "v1"), (FieldKey.jobTitle, some "v2"),
   (FieldKey.companyName, some "v3"), (FieldKey.email, some "v4"),
   (FieldKey.phoneRequestLink, some "v5"), (FieldKey.linkedIn, some "v6"),
   (FieldKey.location, some "x1"), (FieldKey.employeeCount, some "x2"),
   (FieldKey.nicheTags, some "x3")]

/-- A rowClass entry plus ten fields, seven of them valid under envPrefixV. -/
def entries7of10 : MiningEntries :=
  [(FieldKey.rowClass, some "div.zp_RRRRRRRR"),
   (FieldKey.name, some "v1"), (FieldKey.jobTitle, some "v2"),
   (FieldKey.companyName, some "v3"), (FieldKey.email, some "v4"),
   (FieldKey.emailRequiresAccess, some "v5"), (FieldKey.phoneRequestLink, some "v6"),
   (FieldKey.phoneVisible, some "v7"), (FieldKey.linkedIn, some "x1"),
   (FieldKey.location, some "x2"), (FieldKey.employeeCount, some "x3")]

/-- A rowClass entry plus ten fields, six of them valid under envPrefixV. -/
def entries6of10 : MiningEntries :=
  [(FieldKey.rowClass, some "div.zp_RRRRRRRR"),
   (FieldKey.name, some "v1"), (FieldKey.jobTitle, some "v2"),
   (FieldKey.companyName, some "v3"), (FieldKey.email, some "v4"),
   (FieldKey.emailRequiresAccess, some "v5"), (FieldKey.phoneRequestLink, some "v6"),
   (FieldKey.phoneVisible, some "x1"), (FieldKey.linkedIn, some "x2"),
   (FieldKey.location, some "x3"), (FieldKey.employeeCount, some "x4")]

/-- Five mined fields, no rowClass entry, three of them valid under envPrefixV. -/
def entriesC3 : MiningEntries :=
  [(FieldKey.name, some "v1"), (FieldKey.jobTitle, some "v2"),
   (FieldKey.companyName, some "v3"), (FieldKey.location, some "x1"),
   (FieldKey.nicheTags, some "x2")]

/-- An accepted mining result whose emailRequiresAccess value carries double
quotes, as the miner itself produces it. -/
def minedC4 : MiningEntries :=
  [(FieldKey.rowClass, some "div.zp_AAAAAAAAAAA"),
   (FieldKey.name, some "a.zp_NNNNNNN"),
   (FieldKey.jobTitle, some "span.zp_FEm_X"),
   (FieldKey.emailRequiresAccess, some accessConst)]

/-- A mining result carrying only a row-class candidate. -/
def minedC5 : MiningEntries := [(FieldKey.rowClass, some "div.zp_CCCCCCCCCC")]

/-- A persisted state whose rowSelectors list holds a single entry. -/
def fileC5 : SelFile := { rowSelectors := ["div[role=\"row\"]"], table := [] }

/-- A trivial continuation for the abstracted per-cell mining. -/
def contEmpty : String → MiningEntries := fun _ => []

/-- A document where the first candidate matches one thin row of 5 cells whose
row element carries a long semantic class, the second candidate matches
nothing, and the third matches two rows of 12 cells. -/
def envC1 : DocEnv :=
  { count := fun s => if s = rowSelCand1 then 1 else if s = rowSelCand3 then 2 else 0,
    firstRowClasses := fun s => if s = rowSelCand1 then ["zp_AAAAAAAAAAA"] else [],
    firstRowCellCount := fun s => if s = rowSelCand1 then 5 else if s = rowSelCand3 then 12 else 0 }

/-- The visible email span of a sample cell: both its classes carry the
semantic prefix. -/
def emailSpanElem : ElemData :=
  { tag := "span", testid := none, eid := none, classes := ["zp_CaeaN", "zp_JTaUA"],
    role := none, siblingClassCount := fun _ => 0 }

/-- Three mined fields, all valid under envPrefixV: too few for the pipeline
gate. -/
def minedSkip : MiningEntries :=
  [(FieldKey.name, some "v1"), (FieldKey.jobTitle, some "v2"),
   (FieldKey.companyName, some "v3")]

/-- A quote-free accepted mining result, for the idempotence witness. -/
def minedC4W : MiningEntries :=
  [(FieldKey.rowClass, some "div.zp_AAAAAAAAAAA"),
   (FieldKey.name, some "a.zp_NNNNNNN"),
   (FieldKey.jobTitle, some "span.zp_FEm_X"),
   (FieldKey.linkedIn, some "a.zp_LLLLLLL")]

/-! Helper lemmas shared by several claims. -/

theorem tv_eq_some {o : Option String} {v : String} (h : tv o = some v) :
    o = some v ∧ v ≠ "" := by
  cases o with
  | none => simp [tv] at h
  | some s =>
    by_cases hs : s = ""
    · simp [tv, hs] at h
    · simp only [tv, hs, if_neg, if_false, Option.some.injEq] at h
      subst h
      exact ⟨rfl, hs⟩

theorem tv_some_of_ne {v : String} (h : v ≠ "") : tv (some v) = some v := by
  simp [tv, h]

theorem find?_split {α : Type} (p : α → Bool) (l : List α) (c : α) :
    l.find? p = some c ↔
      ∃ l1 l2, l = l1 ++ c :: l2 ∧ p c = true ∧ ∀ x ∈ l1, p x = false := by
  induction l with
  | nil =>
    constructor
    · intro h
      simp [List.find?] at h
    · rintro ⟨l1, l2, heq, -, -⟩
      exact absurd heq (by cases l1 <;> simp)
  | cons a t ih =>
    by_cases h : p a = true
    · rw [List.find?_cons_of_pos _ h]
      constructor
      · intro hc
        injection hc with hc
        subst hc
        exact ⟨[], t, rfl, h, by simp⟩
      · rintro ⟨l1, l2, heq, hpc, hall⟩
        cases l1 with
        | nil =>
          simp only [List.nil_append] at heq
          injection heq with h1 _
          rw [h1]
        | cons b l1 =>
          simp only [List.cons_append] at heq
          injection heq with h1 _
          have hb := hall b (by simp)
          rw [← h1, h] at hb
          cases hb
    · rw [List.find?_cons_of_neg _ h]
      rw [ih]
      constructor
      · rintro ⟨l1, l2, rfl, hpc, hall⟩
        refine ⟨a :: l1, l2, rfl, hpc, ?_⟩
        intro x hx
        rcases List.mem_cons.mp hx with rfl | hx2
        · exact Bool.eq_false_iff.mpr h
        · exact hall x hx2
      · rintro ⟨l1, l2, heq, hpc, hall⟩
        cases l1 with
        | nil =>
          simp only [List.nil_append] at heq
          injection heq with h1 _
          rw [h1] at h
          exact absurd hpc h
        | cons b l1 =>
          simp only [List.cons_append] at heq
          injection heq with h1 h2
          subst h2
          exact ⟨l1, l2, rfl, hpc, fun x hx => hall x (by simp [hx])⟩

theorem lookupKV_mem {α : Type} {l : List (FieldKey × α)} {k : FieldKey} {v : α}
    (h : lookupKV l k = some v) : (k, v) ∈ l := by
  induction l with
  | nil => simp [lookupKV] at h
  | cons p rest ih =>
    by_cases hp : p.1 = k
    · simp only [lookupKV, hp, if_pos] at h
      injection h with h
      have : p = (k, v) := by
        cases p
        simp only at hp h
        simp [hp, h]
      rw [← this]
      exact List.mem_cons_self p rest
    · simp only [lookupKV, hp, if_neg, if_false] at h
      exact List.mem_cons_of_mem _ (ih h)

theorem lookupKV_setKV_self {α : Type} (l : List (FieldKey × α)) (k : FieldKey) (v w : α)
    (h : lookupKV l k = some w) : lookupKV (setKV l k v) k = some v := by
  induction l with
  | nil => simp [lookupKV] at h
  | cons p rest ih =>
    by_cases hp : p.1 = k
    · simp [lookupKV, setKV, hp]
    · simp only [lookupKV, setKV, hp, if_neg, if_false, List.map_cons] at h ⊢
      exact ih h

theorem lookupKV_setKV_ne {α : Type} (l : List (FieldKey × α)) (k q : FieldKey) (v : α)
    (h : q ≠ k) : lookupKV (setKV l k v) q = lookupKV l q := by
  induction l with
  | nil => simp [setKV, lookupKV]
  | cons p rest ih =>
    by_cases hp : p.1 = k
    · have h1 : ¬(k = q) := fun hh => h hh.symm
      have h2 : ¬(p.1 = q) := by rw [hp]; exact h1
      simp only [setKV, List.map_cons, hp, if_pos, lookupKV, h1, h2, if_neg, if_false]
      exact ih
    · simp only [setKV, List.map_cons, hp, if_neg, if_false, lookupKV]
      by_cases hq : p.1 = q
      · simp [hq]
      · simp only [hq, if_neg, if_false]
        exact ih

theorem lookupKV_append_self {α : Type} (l : List (FieldKey × α)) (k : FieldKey) (v : α)
    (h : lookupKV l k = none) : lookupKV (l ++ [(k, v)]) k = some v := by
  induction l with
  | nil => simp [lookupKV]
  | cons p rest ih =>
    by_cases hp : p.1 = k
    · simp [lookupKV, hp] at h
    · simp only [lookupKV, hp, if_neg, if_false, List.cons_append] at h ⊢
      exact ih h

theorem lookupKV_append_ne {α : Type} (l : List (FieldKey × α)) (k q : FieldKey) (v : α)
    (h : q ≠ k) : lookupKV (l ++ [(k, v)]) q = lookupKV l q := by
  induction l with
  | nil =>
    have h1 : ¬(k = q) := fun hh => h hh.symm
    simp [lookupKV, h1]
  | cons p rest ih =>
    by_cases hp : p.1 = q
    · simp [lookupKV, hp]
    · simp only [lookupKV, hp, if_neg, if_false, List.cons_append]
      exact ih

theorem lookupKV_setOrAddKV_self {α : Type} (l : List (FieldKey × α)) (k : FieldKey) (v : α) :
    lookupKV (setOrAddKV l k v) k = some v := by
  unfold setOrAddKV
  cases h : lookupKV l k with
  | none => exact lookupKV_append_self l k v h
  | some w => exact lookupKV_setKV_self l k v w h

theorem lookupKV_setOrAddKV_ne {α : Type} (l : List (FieldKey × α)) (k q : FieldKey) (v : α)
    (h : q ≠ k) : lookupKV (setOrAddKV l k v) q = lookupKV l q := by
  unfold setOrAddKV
  cases hl : lookupKV l k with
  | none => exact lookupKV_append_ne l k q v h
  | some w => exact lookupKV_setKV_ne l k q v h

theorem stripQuotes_of_noQuotes (s : String) (h : noQuotes s = true) :
    stripQuotes s = s := by
  unfold noQuotes at h
  unfold stripQuotes
  have hf : s.toList.filter (fun ch => ch != apostropheChar && ch != quoteChar) = s.toList :=
    List.filter_eq_self.mpr (List.all_eq_true.mp h)
  rw [hf]
  cases s
  rfl

/-! The claims. -/

/-- C1, counterexample: on a document where the first candidate matches one
row of only 5 cells and the third matches rows of 12 cells, mineSelectors
accepts the first candidate, not the first candidate meeting the 10-cell
threshold as the claim states, and it returns a non-empty MiningResult
carrying the mined row class instead of an empty one. -/
theorem mineSelectors_rowDiscovery_cex :
    (mineSelectorsModel initialRowSelectors envC1 contEmpty).rowSelectorUsed = some rowSelCand1
    ∧ specRowDiscovery initialRowSelectors envC1 = some rowSelCand3
    ∧ rowSelCand1 ≠ rowSelCand3
    ∧ envC1.firstRowCellCount rowSelCand1 < 10
    ∧ (mineSelectorsModel initialRowSelectors envC1 contEmpty).mined ≠ [] := by
  refine ⟨by decide, by decide, by decide, by decide, by decide⟩

/-- C2, failing input: a mapping of nine fields with no rowClass entry and six
valid fields is accepted by validateSelectors, though 6/9 is below the 0.70
bound the claim states, because the code divides by the key count minus one
unconditionally; on mappings that do hold a rowClass entry the bound behaves
as claimed: 7 valid of 10 attempted is accepted, 6 of 10 is rejected. -/
theorem validateSelectors_threshold_behavior :
    validateSelectors envPrefixV entriesC2 = true
    ∧ validCount envPrefixV entriesC2 = 6
    ∧ attemptedCount entriesC2 = 9
    ∧ ¬ ((7 : ℚ) / 10 ≤ (validCount envPrefixV entriesC2 : ℚ) / (attemptedCount entriesC2 : ℚ))
    ∧ validateSelectors envPrefixV entries7of10 = true
    ∧ validateSelectors envPrefixV entries6of10 = false := by
  have hv : validCount envPrefixV entriesC2 = 6 := by decide
  have ha : attemptedCount entriesC2 = 9 := by decide
  refine ⟨by decide, hv, ha, ?_, by decide, by decide⟩
  rw [hv, ha]
  norm_num

/-- C3, failing input: on a mapping of five fields with no rowClass entry, the
denominator validateSelectors uses is the key count minus one, 4, not the
count of attempted fields, 5, as the claim states for rowClass-free mappings;
with three valid fields the code accepts although 3/5 is below 0.70. -/
theorem validateSelectors_denominator_behavior :
    validateSelectors envPrefixV entriesC3 = true
    ∧ lookupKV entriesC3 FieldKey.rowClass = none
    ∧ validCount envPrefixV entriesC3 = 3
    ∧ attemptedCount entriesC3 = 5
    ∧ totalCount entriesC3 - 1 = 4
    ∧ ¬ ((7 : ℚ) / 10 ≤ (validCount envPrefixV entriesC3 : ℚ) / (attemptedCount entriesC3 : ℚ)) := by
  have hv : validCount envPrefixV entriesC3 = 3 := by decide
  have ha : attemptedCount entriesC3 = 5 := by decide
  refine ⟨by decide, by decide, hv, ha, by decide, ?_⟩
  rw [hv, ha]
  norm_num

/-- C4, counterexample: the accepted mining result minedC4 carries the
quote-bearing emailRequiresAccess locator the miner itself produces; because
updateSelectors strips every quote character from the stored old value before
comparing, the second application against the state left by the first still
records one change, so applying twice is not change-free. -/
theorem updateSelectors_not_idempotent_cex :
    validateSelectors envAllValid minedC4 = true
    ∧ (updateSelectors minedC4 (updateSelectors minedC4 initialFile).1).2 = 1 := by
  refine ⟨by decide, by decide⟩

/-- C5, counterexample: applying the updater with a row-class candidate
against a single-entry rowSelectors list leaves the list unchanged, so the
mined class does not become the second entry as the claim states for every
application. -/
theorem rowSelectors_single_entry_cex :
    (updateSelectors minedC5 fileC5).1.rowSelectors = ["div[role=\"row\"]"]
    ∧ (updateSelectors minedC5 fileC5).1.rowSelectors.getD 1 "" ≠ "div.zp_CCCCCCCCCC"
    ∧ (updateSelectors minedC5 fileC5).2 = 0 := by
  refine ⟨by decide, by decide, by decide⟩

/-- C6, failing input: an element chain whose first three nodes yield no
selector while the third ancestor carries a data-testid. The source comment
says the loop tries the current element and up to 3 parents, and the claim
says up to 3 ancestors are walked, but the loop bound of findBestSelector
visits the element and only 2 ancestors, so the generator returns none here;
one more step of the same walk would find the selector. -/
theorem findBestSelector_stops_after_two_ancestors :
    findBestSelector [blankElem, blankElem, blankElem, testidElem] = none
    ∧ generateSelector testidElem = some "a[data-testid=\"contact-name-cell\"]"
    ∧ walkChain 4 [blankElem, blankElem, blankElem, testidElem] =
        some "a[data-testid=\"contact-name-cell\"]" := by
  refine ⟨by decide, by decide, by decide⟩

/-- C7, counterexample: with two qualifying classes on the row element, the
mined row class is the first in class-list order, not the longest as the claim
states. -/
theorem rowClass_not_longest_cex :
    mineRowClass ["zp_AAAAAAAA", "zp_BBBBBBBBBBBBB"] = some "zp_AAAAAAAA"
    ∧ specRowClassLongest ["zp_AAAAAAAA", "zp_BBBBBBBBBBBBB"] = some "zp_BBBBBBBBBBBBB"
    ∧ isRowClassCandidate "zp_BBBBBBBBBBBBB" = true
    ∧ "zp_AAAAAAAA".length < "zp_BBBBBBBBBBBBB".length := by
  refine ⟨by decide, by decide, by decide, by decide⟩

/-- C8, counterexample: a cell holding both the visible email span and the
access button records the plain-text email locator and the access-gated entry
side by side; the access recording does not replace the plain-text one as the
claim states. -/
theorem mineEmailCell_cex :
    lookupKV (mineEmailCell [] (some [emailSpanElem]) true) FieldKey.email =
      some (some "span.zp_CaeaN")
    ∧ lookupKV (mineEmailCell [] (some [emailSpanElem]) true) FieldKey.emailRequiresAccess =
      some (some accessConst)
    ∧ lookupKV (mineEmailCell [] (some [emailSpanElem]) true) FieldKey.email ≠ none := by
  refine ⟨by decide, by decide, by decide⟩

/-- C7, amended: the mined row class is the first class in class-list order
with the semantic prefix and length strictly above 10; the recorded locator is
div. followed by that class, and nothing is recorded exactly when no class
qualifies. -/
theorem rowClass_first_qualifying (cs : List String) :
    (∀ c, mineRowClass cs = some c →
      isRowClassCandidate c = true
      ∧ ∃ l1 l2, cs = l1 ++ c :: l2 ∧ ∀ x ∈ l1, isRowClassCandidate x = false)
    ∧ (minedRowClassField cs = none ↔ ∀ c ∈ cs, isRowClassCandidate c = false)
    ∧ ∀ c, mineRowClass cs = some c → minedRowClassField cs = some ("div." ++ c) := by
  refine ⟨?_, ?_, ?_⟩
  · intro c hc
    obtain ⟨l1, l2, heq, hpc, hall⟩ := (find?_split isRowClassCandidate cs c).mp hc
    exact ⟨hpc, l1, l2, heq, hall⟩
  · unfold minedRowClassField mineRowClass
    cases h : cs.find? isRowClassCandidate with
    | none =>
      simp only [Option.map_none', true_iff]
      intro c hcmem
      have := List.find?_eq_none.mp h c hcmem
      exact Bool.eq_false_iff.mpr this
    | some c =>
      simp only [Option.map_some']
      constructor
      · intro hx
        cases hx
      · intro hall
        have hcmem := List.mem_of_find?_eq_some h
        have hpc := List.find?_some h
        rw [hall c hcmem] at hpc
        cases hpc
  · intro c hc
    unfold minedRowClassField
    rw [hc]
    rfl

/-- C1, amended: mineSelectors accepts the first row-selector candidate with a
positive match count, whatever its cell count; when no candidate matches, it
returns the empty MiningResult; the pass proceeds past row discovery exactly
when the first match of the accepted candidate holds at least 10 cells, and
when it does not, the returned result holds at most the row-class entry, so no
other field is mined and no mutation is attempted. -/
theorem mineSelectors_rowDiscovery (cands : List String) (env : DocEnv)
    (cont : String → MiningEntries) :
    ((mineSelectorsModel cands env cont).rowSelectorUsed = none ↔
      ∀ s ∈ cands, env.count s = 0)
    ∧ ((mineSelectorsModel cands env cont).rowSelectorUsed = none →
        (mineSelectorsModel cands env cont).mined = [])
    ∧ ∀ s, (mineSelectorsModel cands env cont).rowSelectorUsed = some s →
        (0 < env.count s
        ∧ (∃ l1 l2, cands = l1 ++ s :: l2 ∧ ∀ x ∈ l1, env.count x = 0)
        ∧ ((mineSelectorsModel cands env cont).proceeded = true ↔
            10 ≤ env.firstRowCellCount s)
        ∧ ((mineSelectorsModel cands env cont).proceeded = false →
            (mineSelectorsModel cands env cont).mined = []
            ∨ ∃ c, (mineSelectorsModel cands env cont).mined =
                [(FieldKey.rowClass, some c)])) := by
  cases hf : cands.find? (fun s => decide (0 < env.count s)) with
  | none =>
    have hall : ∀ s ∈ cands, env.count s = 0 := by
      intro s hs
      have := List.find?_eq_none.mp hf s hs
      simpa using this
    simp only [mineSelectorsModel, hf]
    refine ⟨by simpa using hall, by simp, ?_⟩
    intro s hs
    cases hs
  | some s0 =>
    have hmem := List.mem_of_find?_eq_some hf
    have hpos : 0 < env.count s0 := by
      have := List.find?_some hf
      simpa using this
    have hsplit : ∃ l1 l2, cands = l1 ++ s0 :: l2 ∧ ∀ x ∈ l1, env.count x = 0 := by
      obtain ⟨l1, l2, heq, -, hl1⟩ :=
        (find?_split (fun s => decide (0 < env.count s)) cands s0).mp hf
      refine ⟨l1, l2, heq, fun x hx => ?_⟩
      have := hl1 x hx
      simpa using this
    simp only [mineSelectorsModel, hf]
    by_cases hc : env.firstRowCellCount s0 < 10
    · simp only [hc, if_true, if_pos]
      refine ⟨?_, ?_, ?_⟩
      · constructor
        · intro hx
          cases hx
        · intro hall
          exact absurd (hall s0 hmem) (by omega)
      · intro hx
        cases hx
      · intro s hs
        injection hs with hs
        subst hs
        refine ⟨hpos, hsplit, ?_, ?_⟩
        · constructor
          · intro hx
            cases hx
          · intro hge
            omega
        · intro _
          cases hrc : mineRowClass (env.firstRowClasses s0) with
          | none => left; rfl
          | some c => right; exact ⟨"div." ++ c, rfl⟩
    · simp only [hc, if_false, if_neg, not_false_iff]
      refine ⟨?_, ?_, ?_⟩
      · constructor
        · intro hx
          cases hx
        · intro hall
          exact absurd (hall s0 hmem) (by omega)
      · intro hx
        cases hx
      · intro s hs
        injection hs with hs
        subst hs
        refine ⟨hpos, hsplit, ?_, ?_⟩
        · constructor
          · intro _
            omega
          · intro _
            trivial
        · intro hx
          cases hx

/-- C8, amended: when the access button is present in the email cell, the
access-gated entry is recorded under emailRequiresAccess in addition to, not
instead of, the plain-text email locator: any truthy selector generated from
the visible email span is still recorded under email in the same result. -/
theorem mineEmailCell_both_recorded (m : MiningEntries) (spanChain : Option (List ElemData)) :
    lookupKV (mineEmailCell m spanChain true) FieldKey.emailRequiresAccess =
      some (some accessConst)
    ∧ ∀ s, tv (emailSpanSelector spanChain) = some s →
        lookupKV (mineEmailCell m spanChain true) FieldKey.email = some (some s) := by
  unfold mineEmailCell
  cases h : tv (emailSpanSelector spanChain) with
  | none =>
    constructor
    · exact lookupKV_setOrAddKV_self m FieldKey.emailRequiresAccess (some accessConst)
    · intro s hs
      cases hs
  | some s0 =>
    constructor
    · rw [lookupKV_setOrAddKV_ne _ FieldKey.email FieldKey.emailRequiresAccess _ (by decide)]
      exact lookupKV_setOrAddKV_self m FieldKey.emailRequiresAccess (some accessConst)
    · intro s hs
      injection hs with hs
      subst hs
      exact lookupKV_setOrAddKV_self _ FieldKey.email _

theorem applyFields_lookup_frame (m : MiningEntries) :
    ∀ (tbl : List (FieldKey × String)) (k : FieldKey), (∀ kv ∈ m, kv.1 ≠ k) →
      lookupKV (applyFields m tbl).1 k = lookupKV tbl k := by
  induction m with
  | nil =>
    intro tbl k _
    simp [applyFields]
  | cons kv rest ih =>
    intro tbl k h
    have hk : kv.1 ≠ k := h kv (List.mem_cons_self kv rest)
    have hrest : ∀ p ∈ rest, p.1 ≠ k := fun p hp => h p (List.mem_cons_of_mem kv hp)
    by_cases hrc : kv.1 = FieldKey.rowClass
    · simp only [applyFields, hrc, if_pos]
      exact ih tbl k hrest
    · cases htv : tv kv.2 with
      | none =>
        simp only [applyFields, hrc, htv, if_neg, if_false]
        exact ih tbl k hrest
      | some v =>
        cases hlk : lookupKV tbl kv.1 with
        | some stored =>
          by_cases hdiff : stripQuotes stored ≠ v
          · simp only [applyFields, hrc, htv, hlk, if_neg, if_false]
            rw [if_pos hdiff]
            show lookupKV (applyFields rest (setKV tbl kv.1 v)).1 k = lookupKV tbl k
            rw [ih (setKV tbl kv.1 v) k hrest]
            exact lookupKV_setKV_ne tbl kv.1 k v (Ne.symm hk)
          · simp only [applyFields, hrc, htv, hlk, if_neg, if_false]
            rw [if_neg hdiff]
            exact ih tbl k hrest
        | none =>
          simp only [applyFields, hrc, htv, hlk, if_neg, if_false]
          show lookupKV (applyFields rest (tbl ++ [(kv.1, v)])).1 k = lookupKV tbl k
          rw [ih (tbl ++ [(kv.1, v)]) k hrest]
          exact lookupKV_append_ne tbl kv.1 k v (Ne.symm hk)

theorem applyFields_cons_fst (kv : FieldKey × Option String) (rest : MiningEntries)
    (tbl : List (FieldKey × String)) :
    ∃ tbl2, (applyFields (kv :: rest) tbl).1 = (applyFields rest tbl2).1 := by
  by_cases hrc : kv.1 = FieldKey.rowClass
  · exact ⟨tbl, by simp [applyFields, hrc]⟩
  · cases htv : tv kv.2 with
    | none => exact ⟨tbl, by simp [applyFields, hrc, htv]⟩
    | some v =>
      cases hlk : lookupKV tbl kv.1 with
      | some stored =>
        by_cases hdiff : stripQuotes stored ≠ v
        · exact ⟨setKV tbl kv.1 v, by simp [applyFields, hrc, htv, hlk, hdiff]⟩
        · exact ⟨tbl, by simp [applyFields, hrc, htv, hlk, hdiff]⟩
      | none => exact ⟨tbl ++ [(kv.1, v)], by simp [applyFields, hrc, htv, hlk]⟩

theorem applyFields_lookup_post (m : MiningEntries) :
    ∀ (tbl : List (FieldKey × String)), (m.map Prod.fst).Nodup →
      ∀ (k : FieldKey) (v : String), (k, some v) ∈ m → k ≠ FieldKey.rowClass → v ≠ "" →
        noQuotes v = true →
        ∃ w, lookupKV (applyFields m tbl).1 k = some w ∧ stripQuotes w = v := by
  induction m with
  | nil =>
    intro tbl _ k v hmem
    cases hmem
  | cons kv rest ih =>
    intro tbl hnd k v hmem hkrc hv hq
    have hndrest : (rest.map Prod.fst).Nodup := by
      simp only [List.map_cons, List.nodup_cons] at hnd
      exact hnd.2
    have hknotin : kv.1 ∉ rest.map Prod.fst := by
      simp only [List.map_cons, List.nodup_cons] at hnd
      exact hnd.1
    rcases List.mem_cons.mp hmem with heq | hmemrest
    · have hk1 : kv.1 = k := by rw [← heq]
      have hk2 : kv.2 = some v := by rw [← heq]
      have htv : tv kv.2 = some v := by rw [hk2]; exact tv_some_of_ne hv
      have hfr : ∀ p ∈ rest, p.1 ≠ k := by
        intro p hp hcon
        apply hknotin
        rw [hk1, ← hcon]
        exact List.mem_map_of_mem Prod.fst hp
      have hrc : ¬(kv.1 = FieldKey.rowClass) := by rw [hk1]; exact hkrc
      cases hlk : lookupKV tbl kv.1 with
      | some stored =>
        by_cases hdiff : stripQuotes stored ≠ v
        · refine ⟨v, ?_, stripQuotes_of_noQuotes v hq⟩
          simp only [applyFields, hrc, htv, hlk, if_neg, if_false]
          rw [if_pos hdiff]
          show lookupKV (applyFields rest (setKV tbl kv.1 v)).1 k = some v
          rw [applyFields_lookup_frame rest (setKV tbl kv.1 v) k hfr]
          rw [hk1]
          exact lookupKV_setKV_self tbl k v stored (hk1 ▸ hlk)
        · have hse : stripQuotes stored = v := not_not.mp hdiff
          refine ⟨stored, ?_, hse⟩
          simp only [applyFields, hrc, htv, hlk, if_neg, if_false]
          rw [if_neg hdiff]
          rw [applyFields_lookup_frame rest tbl k hfr]
          rw [← hk1]
          exact hlk
      | none =>
        refine ⟨v, ?_, stripQuotes_of_noQuotes v hq⟩
        simp only [applyFields, hrc, htv, hlk, if_neg, if_false]
        show lookupKV (applyFields rest (tbl ++ [(kv.1, v)])).1 k = some v
        rw [applyFields_lookup_frame rest (tbl ++ [(kv.1, v)]) k hfr]
        rw [hk1]
        exact lookupKV_append_self tbl k v (hk1 ▸ hlk)
    · obtain ⟨tbl2, heq2⟩ := applyFields_cons_fst kv rest tbl
      rw [heq2]
      exact ih tbl2 hndrest k v hmemrest hkrc hv hq

theorem applyFields_noop (m : MiningEntries) :
    ∀ (tbl : List (FieldKey × String)),
      (∀ (k : FieldKey) (v : String), (k, some v) ∈ m → k ≠ FieldKey.rowClass → v ≠ "" →
        ∃ w, lookupKV tbl k = some w ∧ stripQuotes w = v) →
      applyFields m tbl = (tbl, 0) := by
  induction m with
  | nil =>
    intro tbl _
    simp [applyFields]
  | cons kv rest ih =>
    intro tbl h
    have hrest : ∀ (k : FieldKey) (v : String), (k, some v) ∈ rest →
        k ≠ FieldKey.rowClass → v ≠ "" →
        ∃ w, lookupKV tbl k = some w ∧ stripQuotes w = v :=
      fun k v hm => h k v (List.mem_cons_of_mem kv hm)
    by_cases hrc : kv.1 = FieldKey.rowClass
    · simp only [applyFields, hrc, if_pos]
      exact ih tbl hrest
    · cases htv : tv kv.2 with
      | none =>
        simp only [applyFields, hrc, htv, if_neg, if_false]
        exact ih tbl hrest
      | some v =>
        obtain ⟨hv2, hvne⟩ := tv_eq_some htv
        have hkveq : kv = (kv.1, some v) := by rw [← hv2]
        have hmem : (kv.1, some v) ∈ kv :: rest := by
          rw [← hkveq]
          exact List.mem_cons_self kv rest
        obtain ⟨w, hw, hsw⟩ := h kv.1 v hmem hrc hvne
        have hdiff : ¬(stripQuotes w ≠ v) := fun hh => hh hsw
        simp only [applyFields, hrc, htv, hw, if_neg, if_false]
        rw [if_neg hdiff]
        exact ih tbl hrest

theorem applyFields_idem (m : MiningEntries) (tbl : List (FieldKey × String))
    (hnd : (m.map Prod.fst).Nodup)
    (hq : ∀ kv ∈ m, noQuotesO kv.2 = true) :
    applyFields m (applyFields m tbl).1 = ((applyFields m tbl).1, 0) := by
  apply applyFields_noop
  intro k v hmem hkrc hv
  have hqv : noQuotes v = true := by
    have := hq (k, some v) hmem
    simpa [noQuotesO] using this
  exact applyFields_lookup_post m tbl hnd k v hmem hkrc hv hqv

theorem two_le_length_split {l : List String} (h : 1 < l.length) :
    ∃ a b t, l = a :: b :: t := by
  cases l with
  | nil => exact absurd h (by simp)
  | cons a l2 =>
    cases l2 with
    | nil => exact absurd h (by simp)
    | cons b t => exact ⟨a, b, t, rfl⟩

theorem applyRow_change (rc a b : String) (t : List String) (hdiff : stripQuotes b ≠ rc) :
    applyRow (some rc) (a :: b :: t) =
      (a :: rc :: (if t.isEmpty then [rowFallbackSelector] else t), 1) := by
  cases t with
  | nil =>
    simp [applyRow, List.getD_cons_succ, List.getD_cons_zero, hdiff, List.set]
  | cons c t2 =>
    simp [applyRow, List.getD_cons_succ, List.getD_cons_zero, hdiff, List.set]

theorem applyRow_nochange (rc a b : String) (t : List String) (heq : stripQuotes b = rc) :
    applyRow (some rc) (a :: b :: t) = (a :: b :: t, 0) := by
  simp [applyRow, List.getD_cons_succ, List.getD_cons_zero, heq]

theorem applyRow_short (rcOpt : Option String) (rs : List String) (h : ¬ 1 < rs.length) :
    applyRow rcOpt rs = (rs, 0) := by
  cases rcOpt with
  | none => rfl
  | some rc =>
    simp only [applyRow]
    rw [if_neg h]

theorem applyRow_idem (rcOpt : Option String) (rs : List String)
    (hq : ∀ rc, rcOpt = some rc → noQuotes rc = true) :
    applyRow rcOpt (applyRow rcOpt rs).1 = ((applyRow rcOpt rs).1, 0) := by
  cases rcOpt with
  | none => rfl
  | some rc =>
    have hstrip : stripQuotes rc = rc := stripQuotes_of_noQuotes rc (hq rc rfl)
    by_cases hlen : 1 < rs.length
    · obtain ⟨a, b, t, rfl⟩ := two_le_length_split hlen
      by_cases hdiff : stripQuotes b ≠ rc
      · rw [applyRow_change rc a b t hdiff]
        exact applyRow_nochange rc a rc _ hstrip
      · have heq : stripQuotes b = rc := not_not.mp hdiff
        rw [applyRow_nochange rc a b t heq]
        exact applyRow_nochange rc a b t heq
    · rw [applyRow_short _ rs hlen]
      exact applyRow_short _ rs hlen

theorem updateSelectors_eq (mined : MiningEntries) (st : SelFile) :
    updateSelectors mined st =
      ({ rowSelectors := (applyRow (rcOf mined) st.rowSelectors).1,
         table := (applyFields mined st.table).1 },
       (applyRow (rcOf mined) st.rowSelectors).2 + (applyFields mined st.table).2) := rfl

/-- C4, amended: applying the updater twice with the same accepted mining
result yields zero changes and no write on the second application, provided
the mined values carry no quote character; the quote-stripped old-value
comparison makes this proviso necessary, as the counterexample shows. -/
theorem updateSelectors_idempotent_quoteFree (env : ProbeEnv) (mined : MiningEntries)
    (st : SelFile) (hacc : validateSelectors env mined = true)
    (hnd : (mined.map Prod.fst).Nodup)
    (hq : ∀ kv ∈ mined, noQuotesO kv.2 = true) :
    updateSelectors mined (updateSelectors mined st).1 = ((updateSelectors mined st).1, 0) := by
  have hrcq : ∀ rc, rcOf mined = some rc → noQuotes rc = true := by
    intro rc h
    unfold rcOf at h
    cases hl : lookupKV mined FieldKey.rowClass with
    | none =>
      rw [hl] at h
      cases h
    | some v =>
      rw [hl] at h
      obtain ⟨hv, -⟩ := tv_eq_some h
      subst hv
      have := hq _ (lookupKV_mem hl)
      simpa [noQuotesO] using this
  have hrow := applyRow_idem (rcOf mined) st.rowSelectors hrcq
  have hfld := applyFields_idem mined st.table hnd hq
  simp only [updateSelectors_eq]
  rw [hrow, hfld]
  rfl

/-- C4, witness instance of the idempotence theorem: a quote-free accepted
mining result applied twice against the shipped configuration. -/
theorem updateSelectors_idempotent_quoteFree_witness :
    updateSelectors minedC4W (updateSelectors minedC4W initialFile).1 =
      ((updateSelectors minedC4W initialFile).1, 0) :=
  updateSelectors_idempotent_quoteFree envAllValid minedC4W initialFile (by decide) (by decide)
    (by decide)

/-- C5, amended: on a prior rowSelectors list of at least two entries whose
second entry is quote-free, an update carrying a mined row class keeps the
first entry unchanged, places the mined class second, preserves every prior
entry from the third position onward at its position, never shortens the list,
and when the prior list held exactly two entries and a change occurred, the
hardcoded fallback is appended as the third entry. -/
theorem rowSelectors_update_second_slot (rc a b : String) (t : List String)
    (hqb : noQuotes b = true) :
    (applyRow (some rc) (a :: b :: t)).1.headD "" = a
    ∧ (applyRow (some rc) (a :: b :: t)).1.getD 1 "" = rc
    ∧ (∀ i x, (a :: b :: t)[i]? = some x → 2 ≤ i →
        (applyRow (some rc) (a :: b :: t)).1[i]? = some x)
    ∧ (a :: b :: t).length ≤ (applyRow (some rc) (a :: b :: t)).1.length
    ∧ (t = [] → stripQuotes b ≠ rc →
        (applyRow (some rc) (a :: b :: t)).1.getD 2 "" = rowFallbackSelector) := by
  by_cases hdiff : stripQuotes b ≠ rc
  · rw [applyRow_change rc a b t hdiff]
    refine ⟨rfl, rfl, ?_, ?_, ?_⟩
    · intro i x hx hi
      obtain ⟨j, rfl⟩ : ∃ j, i = j + 2 := ⟨i - 2, by omega⟩
      simp only [List.getElem?_cons_succ] at hx ⊢
      cases ht : t.isEmpty with
      | true =>
        rw [List.isEmpty_iff.mp ht] at hx
        cases hx
      | false =>
        simpa using hx
    · cases ht : t.isEmpty with
      | true =>
        rw [List.isEmpty_iff.mp ht]
        simp
      | false =>
        simp [ht]
    · intro ht _
      subst ht
      rfl
  · have heq : stripQuotes b = rc := not_not.mp hdiff
    have hbrc : b = rc := by rw [← heq, stripQuotes_of_noQuotes b hqb]
    rw [applyRow_nochange rc a b t heq]
    refine ⟨rfl, by simpa [List.getD] using hbrc, fun i x hx _ => hx, le_refl _, ?_⟩
    intro _ hcon
    exact absurd heq hcon

/-- C5, witness instance: updating the shipped three-entry rowSelectors list
with a freshly mined row class places it second. -/
theorem rowSelectors_update_second_slot_witness :
    (applyRow (some "div.zp_DDDDDDDDDD") (rowSelCand1 :: rowSelCand2 :: [rowSelCand3])).1.getD 1 ""
      = "div.zp_DDDDDDDDDD" :=
  (rowSelectors_update_second_slot "div.zp_DDDDDDDDDD" rowSelCand1 rowSelCand2 [rowSelCand3]
    (by decide)).2.1

/-- C9: the drift monitor raises the mining suggestion exactly when strictly
more than 3 probes failed with no match, and it never invokes the miner
itself, whatever the auto-mine environment flag holds. -/
theorem handleSelectorFailures_escalation (results : List CategoryResult) (autoMineEnv : Bool) :
    ((handleSelectorFailures results autoMineEnv).miningSuggested = true ↔
      3 < (failedSelectors results).length)
    ∧ (handleSelectorFailures results autoMineEnv).minerInvoked = false := by
  unfold handleSelectorFailures
  by_cases h : 3 < (failedSelectors results).length <;> simp [h]

/-- C10: the mining pipeline invokes the validator exactly when the mined
object holds strictly more than 3 keys, the updater only runs on an accepted
validation, a result of at most 3 entries leaves the persisted state untouched
with neither stage invoked, and a concrete all-valid three-entry result is
nevertheless skipped. -/
theorem minePipeline_gate (env : ProbeEnv) (mined : MiningEntries) (st : SelFile) :
    ((minePipeline env mined st).validationInvoked = true ↔ 3 < totalCount mined)
    ∧ ((minePipeline env mined st).updateInvoked = true →
        3 < totalCount mined ∧ validateSelectors env mined = true)
    ∧ (totalCount mined ≤ 3 → minePipeline env mined st =
        { validationInvoked := false, accepted := false, updateInvoked := false,
          finalState := st, changes := 0 })
    ∧ allMinedValid envPrefixV minedSkip = true
    ∧ (minePipeline envPrefixV minedSkip st).validationInvoked = false := by
  refine ⟨?_, ?_, ?_, by decide, ?_⟩
  · unfold minePipeline
    by_cases h : 3 < totalCount mined
    · by_cases hv : validateSelectors env mined <;> simp [h, hv]
    · simp [h]
  · unfold minePipeline
    by_cases h : 3 < totalCount mined
    · by_cases hv : validateSelectors env mined <;> simp [h, hv]
    · simp [h]
  · intro hle
    unfold minePipeline
    rw [if_neg (by omega)]
  · unfold minePipeline
    rw [if_neg (by decide)]

end WebScraper
